import Mathlib

/-!
Shallow embedding of the rendering core of the `rust-raytracer` repository
(`src/materials.rs`, `src/world.rs`), together with the linear-algebra and
shape collaborators that the repository declares in `lib.rs` but whose
source files are not part of the present tree; those collaborators are
modelled from the specification and are marked as such in their doc
comments.  Floating-point numbers are embedded as real numbers.
-/

namespace RayTracer

/-- Modelled from the spec: the `Tuple` type of the missing `tuple.rs`
(a point or vector with a homogeneous `w` component of 1 or 0). -/
structure Tuple where
  x : ℝ
  y : ℝ
  z : ℝ
  w : ℝ

noncomputable instance : Add Tuple :=
  ⟨fun a b => ⟨a.x + b.x, a.y + b.y, a.z + b.z, a.w + b.w⟩⟩

noncomputable instance : Sub Tuple :=
  ⟨fun a b => ⟨a.x - b.x, a.y - b.y, a.z - b.z, a.w - b.w⟩⟩

noncomputable instance : Neg Tuple :=
  ⟨fun a => ⟨-a.x, -a.y, -a.z, -a.w⟩⟩

noncomputable instance : HMul Tuple ℝ Tuple :=
  ⟨fun a s => ⟨a.x * s, a.y * s, a.z * s, a.w * s⟩⟩

/-- Modelled from the spec: the `point` constructor of the missing `tuple.rs`. -/
def pt (x y z : ℝ) : Tuple := ⟨x, y, z, 1⟩

/-- Modelled from the spec: the `vector` constructor of the missing `tuple.rs`. -/
def vec (x y z : ℝ) : Tuple := ⟨x, y, z, 0⟩

/-- Modelled from the spec: the dot product of the missing `tuple.rs`. -/
noncomputable def Tuple.dot (a b : Tuple) : ℝ :=
  a.x * b.x + a.y * b.y + a.z * b.z + a.w * b.w

/-- Modelled from the spec: the magnitude of the missing `tuple.rs`. -/
noncomputable def Tuple.magnitude (a : Tuple) : ℝ :=
  Real.sqrt (a.x ^ 2 + a.y ^ 2 + a.z ^ 2 + a.w ^ 2)

/-- Modelled from the spec: `normalize` of the missing `tuple.rs`:
divide every component by the magnitude. -/
noncomputable def Tuple.normalize (a : Tuple) : Tuple :=
  ⟨a.x / a.magnitude, a.y / a.magnitude, a.z / a.magnitude, a.w / a.magnitude⟩

/-- Modelled from the spec: `reflect` of the missing `tuple.rs`:
reflect the vector `v` about the normal `n`. -/
noncomputable def Tuple.reflect (v n : Tuple) : Tuple :=
  v - n * (2 * v.dot n)

/-- Modelled from the spec: the `Color` type of the missing `color.rs`. -/
structure Color where
  red : ℝ
  green : ℝ
  blue : ℝ

noncomputable instance : Add Color :=
  ⟨fun a b => ⟨a.red + b.red, a.green + b.green, a.blue + b.blue⟩⟩

noncomputable instance : Mul Color :=
  ⟨fun a b => ⟨a.red * b.red, a.green * b.green, a.blue * b.blue⟩⟩

noncomputable instance : HMul Color ℝ Color :=
  ⟨fun a s => ⟨a.red * s, a.green * s, a.blue * s⟩⟩

/-- Modelled from the spec: the `PointLight` of the missing `lights.rs`
(an intensity color and a position point). -/
structure PointLight where
  intensity : Color
  position : Tuple

/-- Modelled from the spec: the `Ray` of the missing `ray.rs`. -/
structure Ray where
  origin : Tuple
  direction : Tuple

/-- Modelled from the spec: `Ray::position` of the missing `ray.rs`:
the point `origin + direction * t`. -/
noncomputable def Ray.position (r : Ray) (t : ℝ) : Tuple :=
  r.origin + r.direction * t

/-- The `Material` struct of `src/materials.rs`. -/
structure Material where
  color : Color
  ambient : ℝ
  diffuse : ℝ
  specular : ℝ
  shininess : ℝ

/-- `Material::new` of `src/materials.rs`. -/
noncomputable def Material.new : Material :=
  { color := ⟨1, 1, 1⟩
    ambient := 0.1
    diffuse := 0.9
    specular := 0.9
    shininess := 200 }

/-- `Material::lighting` of `src/materials.rs` (the four-argument version in
that file, without an `in_shadow` parameter).  The mutable `diffuse` and
`specular` locals of the Rust function, initialised to black and overwritten
inside the `light_dot_normal >= 0` branch, become the branch-selected pair
`ds` below; the result is `ambient + diffuse + specular` as in the source. -/
noncomputable def Material.lighting (m : Material) (light : PointLight)
    (point eyev normalv : Tuple) : Color :=
  let effective_color := m.color * light.intensity
  let lightv := (light.position - point).normalize
  let ambient := effective_color * m.ambient
  let light_dot_normal := lightv.dot normalv
  let ds : Color × Color :=
    if 0 ≤ light_dot_normal then
      let diffuse := effective_color * m.diffuse * light_dot_normal
      let reflectv := (-lightv).reflect normalv
      let reflect_dot_eye := reflectv.dot eyev
      if 0 < reflect_dot_eye then
        (diffuse, light.intensity * m.specular * (reflect_dot_eye ^ m.shininess))
      else
        (diffuse, ⟨0, 0, 0⟩)
    else
      (⟨0, 0, 0⟩, ⟨0, 0, 0⟩)
  ambient + ds.1 + ds.2

/-- Modelled from the spec: the `in_shadow`-aware `Material::lighting` that
`World::shade_hit` in `src/world.rs` calls, which is missing from
`src/materials.rs`; follows spec section 4.3 step by step. -/
noncomputable def Material.lightingShadow (m : Material) (light : PointLight)
    (point eyev normalv : Tuple) (in_shadow : Bool) : Color :=
  let effective_color := m.color * light.intensity
  let ambient := effective_color * m.ambient
  if in_shadow then ambient
  else
    let lightv := (light.position - point).normalize
    let light_dot_normal := lightv.dot normalv
    if light_dot_normal < 0 then ambient + ⟨0, 0, 0⟩ + ⟨0, 0, 0⟩
    else
      let diffuse := effective_color * m.diffuse * light_dot_normal
      let reflectv := (-lightv).reflect normalv
      let reflect_dot_eye := reflectv.dot eyev
      let specular : Color :=
        if reflect_dot_eye ≤ 0 then ⟨0, 0, 0⟩
        else light.intensity * m.specular * (reflect_dot_eye ^ m.shininess)
      ambient + diffuse + specular

/-- Modelled from the spec: the shape-variant tag of the missing `shape.rs`
(design note 9: a tagged union over sphere, plane, ...). -/
inductive ShapeType where
  | sphere
  | plane
deriving DecidableEq

/-- Modelled from the spec: the `Shape` of the missing `shape.rs`: a variant
tag, a local-to-world 4x4 transform and a material. -/
structure Shape where
  shapeType : ShapeType
  transform : Matrix (Fin 4) (Fin 4) ℝ
  material : Material

/-- The `Intersection` record (a parameter `t` and the primitive hit); its
source file `intersections.rs` is not in the tree, the record layout follows
the spec's data model. -/
structure Intersection where
  t : ℝ
  shape : Shape

/-- View of a `Tuple` as a 4-vector, for applying 4x4 transforms. -/
noncomputable def Tuple.toVec (a : Tuple) : Fin 4 → ℝ := ![a.x, a.y, a.z, a.w]

/-- Inverse view of a 4-vector as a `Tuple`. -/
noncomputable def Tuple.ofVec (v : Fin 4 → ℝ) : Tuple := ⟨v 0, v 1, v 2, v 3⟩

/-- Application of a 4x4 matrix to a tuple. -/
noncomputable def applyM (M : Matrix (Fin 4) (Fin 4) ℝ) (a : Tuple) : Tuple :=
  Tuple.ofVec (M.mulVec a.toVec)

/-- Modelled from the spec: transforming a ray by a matrix (used by the
missing `shape.rs` to carry the world ray into local object space). -/
noncomputable def Ray.transformM (r : Ray) (M : Matrix (Fin 4) (Fin 4) ℝ) : Ray :=
  ⟨applyM M r.origin, applyM M r.direction⟩

/-- Modelled from the spec: the plane-parallelism epsilon of the missing
`shape.rs` (spec section 4.1: "a small epsilon (≈1e-5)"). -/
noncomputable def EPSILON : ℝ := 1e-5

/-- Modelled from the spec: `Shape::intersect` of the missing `shape.rs`
(spec section 4.1): transform the ray into local space by the inverse
transform, then dispatch on the variant; the sphere solves the quadratic and
returns both roots unless the discriminant is negative, the plane returns
nothing when the direction's y component has magnitude below `EPSILON` and
otherwise the single root `-origin.y / direction.y`. -/
noncomputable def Shape.intersect (s : Shape) (r : Ray) : List Intersection :=
  let lr := r.transformM s.transform⁻¹
  match s.shapeType with
  | .sphere =>
    let sphere_to_ray := lr.origin - pt 0 0 0
    let a := lr.direction.dot lr.direction
    let b := 2 * lr.direction.dot sphere_to_ray
    let c := sphere_to_ray.dot sphere_to_ray - 1
    let discriminant := b ^ 2 - 4 * a * c
    if discriminant < 0 then []
    else
      [⟨(-b - Real.sqrt discriminant) / (2 * a), s⟩,
       ⟨(-b + Real.sqrt discriminant) / (2 * a), s⟩]
  | .plane =>
    if |lr.direction.y| < EPSILON then []
    else [⟨-lr.origin.y / lr.direction.y, s⟩]

/-- Modelled from the spec: `Shape::normal` of the missing `shape.rs`
(spec section 4.1): local normal (sphere: local point minus origin, plane:
the constant +y vector) carried to world space by the transpose of the
inverse transform, `w` forced to 0, then normalized. -/
noncomputable def Shape.normal (s : Shape) (world_point : Tuple) : Tuple :=
  let local_point := applyM s.transform⁻¹ world_point
  let local_normal :=
    match s.shapeType with
    | .sphere => local_point - pt 0 0 0
    | .plane => vec 0 1 0
  let world_normal := applyM s.transform⁻¹.transpose local_normal
  (Tuple.mk world_normal.x world_normal.y world_normal.z 0).normalize

/-- The ascending-by-`t` sort used on intersection lists (`xs.sort_by` on
`t` in `World::intersect`, and the sort step of `hit` per spec section
4.2); insertion sort is a stable comparison sort like the source's. -/
noncomputable def sortByT (xs : List Intersection) : List Intersection :=
  xs.insertionSort (fun a b => a.t ≤ b.t)

/-- Modelled from the spec: `hit` of the missing `intersections.rs`
(spec section 4.2): sort ascending by `t`, then linearly scan for the first
intersection with `t ≥ 0`. -/
noncomputable def hit (xs : List Intersection) : Option Intersection :=
  (sortByT xs).find? (fun i => decide (0 ≤ i.t))

/-- The `World` struct of `src/world.rs`. -/
structure World where
  light : PointLight
  shapes : List Shape

/-- The `Comps` struct of `src/world.rs`. -/
structure Comps where
  t : ℝ
  shape : Shape
  point : Tuple
  over_point : Tuple
  eyev : Tuple
  normalv : Tuple
  inside : Bool

/-- `Comps::OVER_POINT_EPSILON` of `src/world.rs` (`0.000_000_1`). -/
noncomputable def OVER_POINT_EPSILON : ℝ := 0.0000001

/-- `World::intersect` of `src/world.rs`: append every shape's intersections
in shape order, then sort ascending by `t`. -/
noncomputable def World.intersect (w : World) (r : Ray) : List Intersection :=
  sortByT (w.shapes.flatMap (fun s => s.intersect r))

/-- `World::prepare_computations` of `src/world.rs`.  Note the source
computes `over_point` from the normal BEFORE the inside test possibly
flips it. -/
noncomputable def World.prepare_computations (i : Intersection) (r : Ray) : Comps :=
  let point := r.position i.t
  let eyev := -r.direction
  let normalv := i.shape.normal point
  let over_point := point + normalv * OVER_POINT_EPSILON
  if normalv.dot eyev < 0 then
    ⟨i.t, i.shape, point, over_point, eyev, -normalv, true⟩
  else
    ⟨i.t, i.shape, point, over_point, eyev, normalv, false⟩

/-- `World::is_shadowed` of `src/world.rs`: the shadow ray's direction is
the NORMALIZED vector toward the light; shadowed iff the nearest hit's `t`
is strictly below the distance to the light. -/
noncomputable def World.is_shadowed (w : World) (p : Tuple) : Bool :=
  let direction := w.light.position - p
  let distance := direction.magnitude
  let ray : Ray := ⟨p, direction.normalize⟩
  match hit (w.intersect ray) with
  | some i => decide (i.t < distance)
  | none => false

/-- The claim-side description of `is_shadowed`, for comparison: identical
except that the shadow ray's direction is `light.position - p` NOT
normalized, while the nearest hit's `t` is still compared against the
magnitude of that vector. -/
noncomputable def World.is_shadowedU (w : World) (p : Tuple) : Bool :=
  let direction := w.light.position - p
  let distance := direction.magnitude
  let ray : Ray := ⟨p, direction⟩
  match hit (w.intersect ray) with
  | some i => decide (i.t < distance)
  | none => false

/-- `World::shade_hit` of `src/world.rs`: lighting of the hit's material at
`over_point` with the world light, the eye vector, the (possibly flipped)
normal and the shadow test at `over_point`. -/
noncomputable def World.shade_hit (w : World) (c : Comps) : Color :=
  c.shape.material.lightingShadow w.light c.over_point c.eyev c.normalv
    (w.is_shadowed c.over_point)

/-- `World::color_at` of `src/world.rs`: black when the ray hits nothing,
otherwise the shaded color of the prepared hit. -/
noncomputable def World.color_at (w : World) (r : Ray) : Color :=
  match hit (w.intersect r) with
  | some i => w.shade_hit (World.prepare_computations i r)
  | none => ⟨0, 0, 0⟩

/-- An `f64`-valued intersection parameter for the panic analysis of the
sort in `World::intersect`: `none` models NaN, `some x` any comparable
(non-NaN) value. -/
structure FIntersection where
  t : Option ℝ

/-- `f64::partial_cmp` as used by the sort in `World::intersect`: it
returns `none` exactly when one of the operands is NaN, and otherwise the
order of the two reals. -/
noncomputable def fcmp : Option ℝ → Option ℝ → Option Ordering
  | some a, some b =>
    some (if a < b then Ordering.lt else if b < a then Ordering.gt else Ordering.eq)
  | _, _ => none

/-- One insertion step of a stable comparison sort driven by `fcmp`;
`Except.error ()` models the panic of the `.unwrap()` in
`World::intersect` when the comparator returns `None`. -/
noncomputable def insertE (a : FIntersection) :
    List FIntersection → Except Unit (List FIntersection)
  | [] => Except.ok [a]
  | b :: l =>
    match fcmp a.t b.t with
    | none => Except.error ()
    | some o =>
      if o = Ordering.gt then (insertE a l).map (fun l2 => b :: l2)
      else Except.ok (a :: b :: l)

/-- The comparison sort of `World::intersect` with the panic made explicit
as an `Except.error`. -/
noncomputable def sortE : List FIntersection → Except Unit (List FIntersection)
  | [] => Except.ok []
  | a :: l =>
    match sortE l with
    | Except.error e => Except.error e
    | Except.ok l2 => insertE a l2

/-- `World::intersect` in the panic-aware model: append the intersections
produced by every shape, then sort by `t` with the fallible comparator. -/
noncomputable def intersectE (perShape : List (List FIntersection)) :
    Except Unit (List FIntersection) :=
  sortE (perShape.flatMap id)

instance : IsTotal Intersection (fun a b => a.t ≤ b.t) :=
  ⟨fun a b => le_total a.t b.t⟩

instance : IsTrans Intersection (fun a b => a.t ≤ b.t) :=
  ⟨fun _ _ _ h h2 => le_trans h h2⟩

/-- A unit sphere with the identity transform and the default material. -/
noncomputable def S0 : Shape := ⟨ShapeType.sphere, 1, Material.new⟩

/-- A plane with the identity transform and the default material. -/
noncomputable def PL : Shape := ⟨ShapeType.plane, 1, Material.new⟩

/-- A concrete world: one unit sphere at the origin, a white light at
`(0, 0, -2)`. -/
noncomputable def W3 : World := ⟨⟨⟨1, 1, 1⟩, pt 0 0 (-2)⟩, [S0]⟩

@[simp]
theorem Tuple.add_def (a b : Tuple) :
    a + b = ⟨a.x + b.x, a.y + b.y, a.z + b.z, a.w + b.w⟩ := rfl

@[simp]
theorem Tuple.sub_def (a b : Tuple) :
    a - b = ⟨a.x - b.x, a.y - b.y, a.z - b.z, a.w - b.w⟩ := rfl

@[simp]
theorem Tuple.neg_def (a : Tuple) : -a = ⟨-a.x, -a.y, -a.z, -a.w⟩ := rfl

@[simp]
theorem Tuple.smul_def (a : Tuple) (s : ℝ) :
    a * s = ⟨a.x * s, a.y * s, a.z * s, a.w * s⟩ := rfl

@[simp]
theorem Color.add_components (a b : Color) :
    a + b = ⟨a.red + b.red, a.green + b.green, a.blue + b.blue⟩ := rfl

@[simp]
theorem Color.mul_components (a b : Color) :
    a * b = ⟨a.red * b.red, a.green * b.green, a.blue * b.blue⟩ := rfl

@[simp]
theorem Color.smul_components (a : Color) (s : ℝ) :
    a * s = ⟨a.red * s, a.green * s, a.blue * s⟩ := rfl

@[simp]
theorem ofVec_toVec (a : Tuple) : Tuple.ofVec a.toVec = a := rfl

@[simp]
theorem applyM_one (a : Tuple) : applyM 1 a = a := by
  simp [applyM, Matrix.one_mulVec]

@[simp]
theorem transformM_one (r : Ray) : r.transformM 1 = r := by
  cases r; simp [Ray.transformM]

theorem sqrt_four : Real.sqrt 4 = 2 := by
  rw [show (4 : ℝ) = 2 ^ 2 by norm_num, Real.sqrt_sq (by norm_num : (0:ℝ) ≤ 2)]

theorem sqrt_sixteen : Real.sqrt 16 = 4 := by
  rw [show (16 : ℝ) = 4 ^ 2 by norm_num, Real.sqrt_sq (by norm_num : (0:ℝ) ≤ 4)]

theorem sqrt_hundred : Real.sqrt 100 = 10 := by
  rw [show (100 : ℝ) = 10 ^ 2 by norm_num, Real.sqrt_sq (by norm_num : (0:ℝ) ≤ 10)]

/-- C10: `Material::new()` always returns the default material with color
`Color(1,1,1)`, ambient `0.1`, diffuse `0.9`, specular `0.9` and
shininess `200`. -/
theorem claim_C10_material_new_default :
    Material.new = ⟨⟨1, 1, 1⟩, 0.1, 0.9, 0.9, 200⟩ := rfl

/-- C1: for every material, light, point, eye vector and normal, when
`in_shadow` is true the lighting function returns only the ambient
component `effective_color * material.ambient`; diffuse and specular are
exactly zero regardless of the geometry. -/
theorem claim_C1_lighting_in_shadow_ambient_only (m : Material)
    (light : PointLight) (point eyev normalv : Tuple) :
    m.lightingShadow light point eyev normalv true =
      m.color * light.intensity * m.ambient := rfl

/-- C5: for every world and ray, `World::intersect` returns a permutation
of the concatenation of the intersections of the ray with every owned
primitive (nothing dropped or added), sorted ascending by `t`. -/
theorem claim_C5_world_intersect_perm_sorted (w : World) (r : Ray) :
    (w.intersect r).Perm (w.shapes.flatMap (fun s => s.intersect r)) ∧
      (w.intersect r).Sorted (fun a b => a.t ≤ b.t) :=
  ⟨List.perm_insertionSort _ _, List.sorted_insertionSort _ _⟩

/-- C5 witness: the property instantiated at a concrete world and ray. -/
theorem claim_C5_witness :
    (W3.intersect ⟨pt 0 0 (-4), vec 0 0 1⟩).Perm
        (W3.shapes.flatMap (fun s => s.intersect ⟨pt 0 0 (-4), vec 0 0 1⟩)) ∧
      (W3.intersect ⟨pt 0 0 (-4), vec 0 0 1⟩).Sorted (fun a b => a.t ≤ b.t) :=
  claim_C5_world_intersect_perm_sorted W3 ⟨pt 0 0 (-4), vec 0 0 1⟩

/-- C7: for every world and ray, `color_at` returns black when hit
selection yields no hit, and otherwise the shaded color of the prepared
hit; the no-hit case is an ordinary return value. -/
theorem claim_C7_color_at_cases (w : World) (r : Ray) :
    (hit (w.intersect r) = none → w.color_at r = ⟨0, 0, 0⟩) ∧
      ∀ i, hit (w.intersect r) = some i →
        w.color_at r = w.shade_hit (World.prepare_computations i r) := by
  constructor
  · intro h
    simp [World.color_at, h]
  · intro i h
    simp [World.color_at, h]

/-- C7 witness: in an empty world nothing is hit and `color_at` is black. -/
theorem claim_C7_witness :
    World.color_at ⟨⟨⟨1, 1, 1⟩, pt 0 0 0⟩, []⟩ ⟨pt 0 0 0, vec 0 0 1⟩ =
      ⟨0, 0, 0⟩ :=
  (claim_C7_color_at_cases ⟨⟨⟨1, 1, 1⟩, pt 0 0 0⟩, []⟩ ⟨pt 0 0 0, vec 0 0 1⟩).1 rfl

/-- C2 (amended): `prepare_computations` sets `inside = true` and negates
the returned normal exactly when `dot(normal, eye_vector) < 0`, but the
`over_point` it returns equals the hit point plus the UNFLIPPED surface
normal scaled by `epsilon = 1e-7` (it is computed before the flip), so when
`inside` is true it lies on the far side from the eye. -/
theorem claim_C2_prepare_computations_spec (i : Intersection) (r : Ray) :
    ((World.prepare_computations i r).inside = true ↔
        (i.shape.normal (r.position i.t)).dot (-r.direction) < 0) ∧
      (World.prepare_computations i r).normalv =
        (if (i.shape.normal (r.position i.t)).dot (-r.direction) < 0 then
          -(i.shape.normal (r.position i.t))
        else i.shape.normal (r.position i.t)) ∧
      (World.prepare_computations i r).over_point =
        r.position i.t +
          i.shape.normal (r.position i.t) * OVER_POINT_EPSILON ∧
      (World.prepare_computations i r).point = r.position i.t ∧
      (World.prepare_computations i r).eyev = -r.direction := by
  simp only [World.prepare_computations]
  by_cases h : (i.shape.normal (r.position i.t)).dot (-r.direction) < 0
  · rw [if_pos h, if_pos h]
    exact ⟨iff_of_true rfl h, rfl, rfl, rfl, rfl⟩
  · rw [if_neg h, if_neg h]
    exact ⟨iff_of_false (by simp) h, rfl, rfl, rfl, rfl⟩

/-- C2 witness: the amended description instantiated at a concrete
intersection and ray (a ray starting at the centre of the unit sphere). -/
theorem claim_C2_witness :
    (World.prepare_computations ⟨1, S0⟩ ⟨pt 0 0 0, vec 0 0 1⟩).over_point =
      Ray.position ⟨pt 0 0 0, vec 0 0 1⟩ 1 +
        S0.normal (Ray.position ⟨pt 0 0 0, vec 0 0 1⟩ 1) * OVER_POINT_EPSILON :=
  (claim_C2_prepare_computations_spec ⟨1, S0⟩ ⟨pt 0 0 0, vec 0 0 1⟩).2.2.1

/-- Evaluation of the surface normal of the identity unit sphere at
`(0,0,1)`. -/
theorem S0_normal_eval : S0.normal ⟨0, 0, 1, 1⟩ = ⟨0, 0, 1, 0⟩ := by
  simp [S0, Shape.normal, pt, Tuple.normalize, Tuple.magnitude]

/-- Evaluation of `prepare_computations` for a ray cast from the centre of
the identity unit sphere: the hit is on the inside, the returned normal is
flipped, but `over_point` was computed from the unflipped normal. -/
theorem prep_eval :
    World.prepare_computations ⟨1, S0⟩ ⟨pt 0 0 0, vec 0 0 1⟩ =
      ⟨1, S0, ⟨0, 0, 1, 1⟩, ⟨0, 0, 1 + OVER_POINT_EPSILON, 1⟩,
        ⟨0, 0, -1, 0⟩, ⟨0, 0, -1, 0⟩, true⟩ := by
  norm_num [World.prepare_computations, Ray.position, pt, vec, S0_normal_eval,
    Tuple.dot]

/-- C2 counterexample: at that concrete inside hit, the returned
`over_point` is NOT the hit point plus the returned (flipped) normal
scaled by epsilon. -/
theorem claim_C2_counterexample :
    (World.prepare_computations ⟨1, S0⟩ ⟨pt 0 0 0, vec 0 0 1⟩).over_point ≠
      (World.prepare_computations ⟨1, S0⟩ ⟨pt 0 0 0, vec 0 0 1⟩).point +
        (World.prepare_computations ⟨1, S0⟩ ⟨pt 0 0 0, vec 0 0 1⟩).normalv *
          OVER_POINT_EPSILON := by
  rw [prep_eval]
  simp [OVER_POINT_EPSILON]
  norm_num

theorem find?_t_cons_pos {a : Intersection} (l : List Intersection)
    (h : 0 ≤ a.t) :
    (a :: l).find? (fun i => decide (0 ≤ i.t)) = some a :=
  List.find?_cons_of_pos _ (by simp [h])

theorem find?_t_cons_neg {a : Intersection} (l : List Intersection)
    (h : a.t < 0) :
    (a :: l).find? (fun i => decide (0 ≤ i.t)) =
      l.find? (fun i => decide (0 ≤ i.t)) :=
  List.find?_cons_of_neg _ (by simp [not_le.mpr h])

/-- C3 (amended): `is_shadowed(P)` casts a ray from `P` toward the light
whose direction is the NORMALIZED vector `light.position - P`, and returns
true iff the nearest hit of that ray has `t` strictly less than the
distance (the magnitude of the unnormalized vector) from `P` to the light;
no hit, or a nearest hit at or beyond the light, gives false. -/
theorem claim_C3_is_shadowed_spec (w : World) (p : Tuple) :
    w.is_shadowed p = true ↔
      ∃ i, hit (w.intersect ⟨p, (w.light.position - p).normalize⟩) = some i ∧
        i.t < (w.light.position - p).magnitude := by
  simp only [World.is_shadowed]
  cases h : hit (w.intersect ⟨p, (w.light.position - p).normalize⟩) with
  | none => simp
  | some i => simp

/-- C3 witness: the amended description instantiated at a concrete world
and point. -/
theorem claim_C3_witness :
    W3.is_shadowed (pt 0 0 (-4)) = true ↔
      ∃ i,
        hit (W3.intersect
            ⟨pt 0 0 (-4), (W3.light.position - pt 0 0 (-4)).normalize⟩) =
          some i ∧
        i.t < (W3.light.position - pt 0 0 (-4)).magnitude :=
  claim_C3_is_shadowed_spec W3 (pt 0 0 (-4))

theorem mag2_eval : Tuple.magnitude ⟨0, 0, 2, 0⟩ = 2 := by
  norm_num [Tuple.magnitude, sqrt_four]

theorem norm2_eval : Tuple.normalize ⟨0, 0, 2, 0⟩ = ⟨0, 0, 1, 0⟩ := by
  norm_num [Tuple.normalize, mag2_eval]

/-- The identity unit sphere intersected by the normalized shadow ray from
`(0,0,-4)` toward `(0,0,-2)`. -/
theorem S0_intersect_eval1 :
    S0.intersect ⟨pt 0 0 (-4), ⟨0, 0, 1, 0⟩⟩ = [⟨3, S0⟩, ⟨5, S0⟩] := by
  norm_num [S0, Shape.intersect, pt, Tuple.dot, sqrt_four]

/-- The identity unit sphere intersected by the same ray with the
unnormalized direction `(0,0,2)`. -/
theorem S0_intersect_eval2 :
    S0.intersect ⟨pt 0 0 (-4), ⟨0, 0, 2, 0⟩⟩ = [⟨3 / 2, S0⟩, ⟨5 / 2, S0⟩] := by
  norm_num [S0, Shape.intersect, pt, Tuple.dot, sqrt_sixteen]

theorem hit_eval1 : hit [⟨(3 : ℝ), S0⟩, ⟨5, S0⟩] = some ⟨3, S0⟩ := by
  norm_num [hit, sortByT, find?_t_cons_pos]

theorem hit_eval2 :
    hit [⟨(3 : ℝ) / 2, S0⟩, ⟨5 / 2, S0⟩] = some ⟨3 / 2, S0⟩ := by
  norm_num [hit, sortByT, find?_t_cons_pos]

/-- C3 counterexample: at the point `(0,0,-4)` of the one-sphere world
`W3` (sphere beyond the light at unnormalized parameter 3/2 < distance 2),
the code's `is_shadowed` is false while the claim's recipe (unnormalized
ray direction compared against the distance) yields true. -/
theorem claim_C3_counterexample :
    W3.is_shadowed (pt 0 0 (-4)) = false ∧
      W3.is_shadowedU (pt 0 0 (-4)) = true := by
  have hd : (W3.light.position - pt 0 0 (-4) : Tuple) = ⟨0, 0, 2, 0⟩ := by
    norm_num [W3, pt]
  have hi1 : W3.intersect ⟨pt 0 0 (-4), ⟨0, 0, 1, 0⟩⟩ = [⟨3, S0⟩, ⟨5, S0⟩] := by
    norm_num [World.intersect, W3, S0_intersect_eval1, sortByT]
  have hi2 : W3.intersect ⟨pt 0 0 (-4), ⟨0, 0, 2, 0⟩⟩ =
      [⟨3 / 2, S0⟩, ⟨5 / 2, S0⟩] := by
    norm_num [World.intersect, W3, S0_intersect_eval2, sortByT]
  constructor
  · simp only [World.is_shadowed, hd, norm2_eval, mag2_eval, hi1, hit_eval1]
    norm_num
  · simp only [World.is_shadowedU, hd, mag2_eval, hi2, hit_eval2]
    norm_num

theorem find?_sorted_min :
    ∀ {ys : List Intersection} {i : Intersection},
      ys.Sorted (fun a b => a.t ≤ b.t) →
      ys.find? (fun j => decide (0 ≤ j.t)) = some i →
      ∀ j ∈ ys, 0 ≤ j.t → i.t ≤ j.t := by
  intro ys
  induction ys with
  | nil => intro i _ hf; simp at hf
  | cons b l ih =>
    intro i hs hf j hj hjt
    by_cases hb : 0 ≤ b.t
    · rw [find?_t_cons_pos _ hb] at hf
      cases Option.some.inj hf
      rcases List.mem_cons.mp hj with rfl | hj2
      · exact le_refl _
      · exact List.rel_of_sorted_cons hs j hj2
    · rw [find?_t_cons_neg _ (not_le.mp hb)] at hf
      rcases List.mem_cons.mp hj with rfl | hj2
      · exact absurd hjt hb
      · exact ih hs.of_cons hf j hj2 hjt

/-- C4: `hit` returns the intersection with the smallest non-negative `t`,
and returns no hit exactly when the set is empty or every `t` is
negative. -/
theorem claim_C4_hit_spec (xs : List Intersection) :
    (hit xs = none ↔ ∀ i ∈ xs, i.t < 0) ∧
      ∀ i, hit xs = some i →
        i ∈ xs ∧ 0 ≤ i.t ∧ ∀ j ∈ xs, 0 ≤ j.t → i.t ≤ j.t := by
  have hperm := List.perm_insertionSort (fun a b => a.t ≤ b.t) xs
  have hsort := List.sorted_insertionSort (fun a b => a.t ≤ b.t) xs
  simp only [hit, sortByT]
  constructor
  · constructor
    · intro h i hi
      have h3 := List.find?_eq_none.mp h i (hperm.mem_iff.mpr hi)
      exact not_le.mp (by simpa using h3)
    · intro h
      apply List.find?_eq_none.mpr
      intro a ha
      simpa using not_le.mpr (h a (hperm.mem_iff.mp ha))
  · intro i hf
    refine ⟨hperm.mem_iff.mp (List.mem_of_find?_eq_some hf), ?_, ?_⟩
    · simpa using List.find?_some hf
    · intro j hj hjt
      exact find?_sorted_min hsort hf j (hperm.mem_iff.mpr hj) hjt

theorem hit_eval3 : hit [⟨(-1 : ℝ), S0⟩, ⟨2, S0⟩, ⟨1, S0⟩] = some ⟨1, S0⟩ := by
  norm_num [hit, sortByT, find?_t_cons_pos, find?_t_cons_neg]

/-- C4 witness: over a set with a negative, the smallest non-negative and a
larger `t`, the returned hit is a member, non-negative, and minimal. -/
theorem claim_C4_witness :
    (⟨(1 : ℝ), S0⟩ : Intersection) ∈
        [⟨(-1 : ℝ), S0⟩, ⟨2, S0⟩, ⟨1, S0⟩] ∧
      0 ≤ (⟨(1 : ℝ), S0⟩ : Intersection).t ∧
      ∀ j ∈ ([⟨(-1 : ℝ), S0⟩, ⟨2, S0⟩, ⟨1, S0⟩] : List Intersection),
        0 ≤ j.t → (⟨(1 : ℝ), S0⟩ : Intersection).t ≤ j.t :=
  (claim_C4_hit_spec _).2 _ hit_eval3

/-- C6: when `dot(normalize(light.position - point), normal) < 0` (light
behind the surface) `Material::lighting` returns the ambient component
alone, and concretely the default material with a white light at
`(0,0,10)`, point at the origin, eye vector and normal `(0,0,-1)` gives
exactly `Color(0.1, 0.1, 0.1)`. -/
theorem claim_C6_lighting_light_behind :
    (∀ (m : Material) (light : PointLight) (p e n : Tuple),
        ((light.position - p).normalize).dot n < 0 →
          m.lighting light p e n = m.color * light.intensity * m.ambient) ∧
      Material.new.lighting ⟨⟨1, 1, 1⟩, pt 0 0 10⟩ (pt 0 0 0) (vec 0 0 (-1))
          (vec 0 0 (-1)) = ⟨0.1, 0.1, 0.1⟩ := by
  have gen : ∀ (m : Material) (light : PointLight) (p e n : Tuple),
      ((light.position - p).normalize).dot n < 0 →
        m.lighting light p e n = m.color * light.intensity * m.ambient := by
    intro m light p e n h
    simp only [Material.lighting]
    rw [if_neg (not_le.mpr h)]
    simp
  refine ⟨gen, ?_⟩
  have hd : (((⟨⟨1, 1, 1⟩, pt 0 0 10⟩ : PointLight).position -
      pt 0 0 0).normalize).dot (vec 0 0 (-1)) < 0 := by
    norm_num [pt, vec, Tuple.normalize, Tuple.magnitude, Tuple.dot,
      sqrt_hundred]
  rw [gen _ _ _ _ _ hd]
  norm_num [Material.new]

/-- C6 witness: the general light-behind-the-surface case applied at the
concrete scenario of the claim. -/
theorem claim_C6_witness :
    Material.new.lighting ⟨⟨1, 1, 1⟩, pt 0 0 10⟩ (pt 0 0 0) (vec 0 0 (-1))
        (vec 0 0 (-1)) =
      Material.new.color * Color.mk 1 1 1 * Material.new.ambient :=
  claim_C6_lighting_light_behind.1 _ _ _ _ _
    (by norm_num [pt, vec, Tuple.normalize, Tuple.magnitude, Tuple.dot,
      sqrt_hundred])

/-- C8: a ray against a plane produces no intersections when the magnitude
of the direction's y component is below `1e-5` (the division never
happens), and otherwise exactly one intersection at
`t = -origin.y / direction.y`; the near-parallel case is an ordinary empty
result, not an error. -/
theorem claim_C8_plane_intersect (s : Shape) (r : Ray)
    (hk : s.shapeType = ShapeType.plane) (ht : s.transform = 1) :
    (|r.direction.y| < EPSILON → s.intersect r = []) ∧
      (¬|r.direction.y| < EPSILON →
        s.intersect r = [⟨-r.origin.y / r.direction.y, s⟩]) := by
  simp only [Shape.intersect, hk, ht, inv_one, transformM_one]
  constructor
  · intro h; rw [if_pos h]
  · intro h; rw [if_neg h]

/-- C8 witness: a ray from `(0,1,0)` straight down meets the plane in the
single intersection `t = 1`. -/
theorem claim_C8_witness :
    PL.intersect ⟨pt 0 1 0, vec 0 (-1) 0⟩ = [⟨1, PL⟩] := by
  have h := (claim_C8_plane_intersect PL ⟨pt 0 1 0, vec 0 (-1) 0⟩ rfl rfl).2
    (by norm_num [vec, EPSILON])
  rw [h]
  norm_num [pt, vec]

theorem insertE_ok :
    ∀ (l : List FIntersection) (a : FIntersection),
      a.t ≠ none → (∀ b ∈ l, b.t ≠ none) →
      ∃ l2, insertE a l = Except.ok l2 ∧ ∀ c ∈ l2, c = a ∨ c ∈ l := by
  intro l
  induction l with
  | nil => intro a _ _; exact ⟨[a], rfl, by simp⟩
  | cons b l ih =>
    intro a ha hl
    obtain ⟨x, hx⟩ := Option.ne_none_iff_exists'.mp ha
    obtain ⟨y, hy⟩ := Option.ne_none_iff_exists'.mp (hl b (by simp))
    have hc : fcmp a.t b.t =
        some (if x < y then Ordering.lt
          else if y < x then Ordering.gt else Ordering.eq) := by
      rw [hx, hy]; rfl
    by_cases hgt : (if x < y then Ordering.lt
        else if y < x then Ordering.gt else Ordering.eq) = Ordering.gt
    · obtain ⟨l2, h2, hm⟩ := ih a ha (fun c hc2 => hl c (by simp [hc2]))
      refine ⟨b :: l2, ?_, ?_⟩
      · simp only [insertE, hc]
        rw [if_pos hgt, h2]
        rfl
      · intro c hcm
        rcases List.mem_cons.mp hcm with rfl | h3
        · right; simp
        · rcases hm c h3 with rfl | h4
          · left; rfl
          · right; simp [h4]
    · refine ⟨a :: b :: l, ?_, ?_⟩
      · simp only [insertE, hc]
        rw [if_neg hgt]
      · intro c hcm
        rcases List.mem_cons.mp hcm with rfl | h3
        · left; rfl
        · right; exact h3

theorem sortE_ok :
    ∀ (xs : List FIntersection), (∀ i ∈ xs, i.t ≠ none) →
      ∃ l2, sortE xs = Except.ok l2 ∧ ∀ c ∈ l2, c ∈ xs := by
  intro xs
  induction xs with
  | nil => intro _; exact ⟨[], rfl, by simp⟩
  | cons a l ih =>
    intro h
    obtain ⟨l2, h2, hm⟩ := ih (fun i hi => h i (by simp [hi]))
    obtain ⟨l3, h3, hm3⟩ :=
      insertE_ok l2 a (h a (by simp)) (fun b hb => h b (by simp [hm b hb]))
    refine ⟨l3, ?_, ?_⟩
    · simp only [sortE, h2]
      exact h3
    · intro c hc
      rcases hm3 c hc with rfl | h4
      · simp
      · simp [hm c h4]

/-- C9: when every intersection parameter collected by `World::intersect`
is a comparable (non-NaN) value, the fallible comparator of the sort never
returns `None`, the `.unwrap()` failure branch is unreachable, and the
sort returns normally instead of panicking. -/
theorem claim_C9_intersect_sort_no_panic
    (perShape : List (List FIntersection))
    (h : ∀ l ∈ perShape, ∀ i ∈ l, i.t ≠ none) :
    ∃ l2, intersectE perShape = Except.ok l2 := by
  have hall : ∀ i ∈ perShape.flatMap id, i.t ≠ none := by
    intro i hi
    obtain ⟨l, hl, hil⟩ := List.mem_flatMap.mp hi
    exact h l hl i hil
  obtain ⟨l2, h2, _⟩ := sortE_ok (perShape.flatMap id) hall
  exact ⟨l2, h2⟩

/-- C9 witness: a concrete two-shape collection of non-NaN parameters
sorts without reaching the panic branch. -/
theorem claim_C9_witness :
    ∃ l2,
      intersectE [[⟨some 1⟩], [⟨some 0⟩]] = Except.ok l2 :=
  claim_C9_intersect_sort_no_panic _ (by
    intro l hl i hi
    rcases List.mem_cons.mp hl with rfl | hl2
    · simp only [List.mem_singleton] at hi
      subst hi; simp
    · rcases List.mem_cons.mp hl2 with rfl | hl3
      · simp only [List.mem_singleton] at hi
        subst hi; simp
      · simp at hl3)

end RayTracer
